import Mathlib

/-!
Verification of the document layer of the RethinkEngine ODM
(`src/rethinkengine/document.py`), shallowly embedded in Lean.

Python values flowing through the document layer are modelled by the
inductive type `Value`; class-level state (the schema built by the
`BaseDocument` metaclass) by `Schema`; per-instance state (`_data`,
the instance `__dict__`, `_dirty`, `_iter`) by `DocState`.  Ordered
dictionaries (`collections.OrderedDict`, plain `dict` in the wire
document) are association lists with in-place update (`ODict`).
-/

namespace RethinkEngine

/-- A Python value as seen by the document layer: `None`, booleans,
integers, strings, and (possibly timezone-naive) datetimes. -/
inductive Value where
  | none
  | bool (b : Bool)
  | int (n : Int)
  | str (s : String)
  | datetime (t : Nat) (tz : Option String)
deriving DecidableEq

/-- Python truthiness (`bool(v)`) for the modelled values; `datetime`
objects are always truthy. -/
def truthy : Value → Bool
  | Value.none => false
  | Value.bool b => b
  | Value.int n => decide (n ≠ 0)
  | Value.str s => decide (s ≠ "")
  | Value.datetime _ _ => true

/-- The name of a value's Python type, as interpolated by
`type(value)` in the `ValidationError` message. -/
def pyType : Value → String
  | Value.none => "NoneType"
  | Value.bool _ => "bool"
  | Value.int _ => "int"
  | Value.str _ => "str"
  | Value.datetime _ _ => "datetime"

/-- `pytz.utc.localize` applied exactly when the value is a datetime
without timezone information (`document.py` lines 88-89); every other
value passes through unchanged. -/
def localizeUTC : Value → Value
  | Value.datetime t Option.none => Value.datetime t (Option.some "UTC")
  | v => v

/-- An ordered dictionary (`OrderedDict` / `dict`): an association
list; updating an existing key keeps its position, a new key is
appended at the end. -/
abbrev ODict (α : Type) := List (String × α)

/-- `d[k]` lookup returning `none` when the key is absent
(`dict.get`). -/
def odGet? {α : Type} : ODict α → String → Option α
  | [], _ => Option.none
  | p :: rest, k => if p.1 = k then Option.some p.2 else odGet? rest k

/-- `d[k] = v`: replace in place if `k` is present, else append. -/
def odSet {α : Type} : ODict α → String → α → ODict α
  | [], k, v => [(k, v)]
  | p :: rest, k, v => if p.1 = k then (k, v) :: rest else p :: odSet rest k v

/-- The keys of an ordered dictionary, in order. -/
def odKeys {α : Type} (d : ODict α) : List String := d.map Prod.fst

/-- A field descriptor (`rethinkengine.fields.BaseField` instance) at
the interface the document layer consumes: its class name (for error
messages), whether it is an `ObjectIdField` / `ReferenceField`
instance, its `_creation_order` token, its `_default`, and its
`is_valid` / `to_rethink` capabilities. -/
structure Field where
  className : String
  isObjectId : Bool
  isReference : Bool
  _creation_order : Nat
  _default : Value
  is_valid : Value → Bool
  to_rethink : Value → Value

/-- Modelled from the spec: `rethinkengine.fields.ObjectIdField` is
part of this repository but not under `src/`.  Per the spec it is the
primitive identifier kind, its default is the absent-value marker
(`None`, so an unsaved document's identifier is absent), its validity
predicate accepts identifier strings (and rejects the absent marker,
which is why `validate` special-cases it), and wire encoding is the
identity on identifiers. -/
def ObjectIdField : Field :=
  { className := "ObjectIdField"
    isObjectId := true
    isReference := false
    _creation_order := 0
    _default := Value.none
    is_valid := fun v => match v with | Value.str _ => true | _ => false
    to_rethink := fun v => v }

/-- The class-level state a `Document` subclass carries after the
metaclass ran: the ordered field mapping `_fields` and the merged
`Meta.primary_key_field` (default `'id'`). -/
structure Schema where
  _fields : ODict Field
  primary_key_field : String

/-- The per-instance state of a `Document`: the `_data` storage
mapping, the plain instance attributes written by
`super().__setattr__` (the instance `__dict__`, underscore slots
aside), the `_dirty` flag and the `_iter` cursor.  The cursor models
`iter(self._fields)`: `Option.none` is the initial Python `None`,
`Option.some l` an iterator object with `l` still to yield (an
exhausted iterator is `Option.some []`, which — like any Python
iterator object — is truthy). -/
structure DocState where
  _data : ODict Value
  attrs : ODict Value
  _dirty : Bool
  _iter : Option (List String)
deriving DecidableEq

/-- `Document._get_value` (lines 174-178): read the storage mapping
under the field's storage key (`_id`-suffixed for reference fields),
falling back to the field's `_default`.  The source indexes
`self._fields[field_name]` and would raise `KeyError` on an
undeclared name; it is only ever called on declared names, and the
embedding returns `Value.none` in that unreachable branch. -/
def _get_value (sch : Schema) (s : DocState) (field_name : String) : Value :=
  match odGet? sch._fields field_name with
  | Option.some f =>
      let key := if f.isReference then field_name ++ "_id" else field_name
      (odGet? s._data key).getD f._default
  | Option.none => Value.none

/-- `Document.__setattr__` (lines 84-96): declared fields get the
datetime timezone fix, the dirty-flag comparison against the current
effective value, the `_id` storage-key suffix for reference fields
and a write into `_data`; every assignment (declared or not) also
performs the plain attribute write. -/
def setattrFn (sch : Schema) (s : DocState) (key : String) (value : Value) : DocState :=
  match odGet? sch._fields key with
  | Option.some f =>
      let value := localizeUTC value
      let dirty := if _get_value sch s key ≠ value then true else s._dirty
      let sKey := if f.isReference then key ++ "_id" else key
      { s with _data := odSet s._data sKey value
               attrs := odSet s.attrs key value
               _dirty := dirty }
  | Option.none => { s with attrs := odSet s.attrs key value }

/-- Python attribute lookup on a `Document` instance: the instance
`__dict__` first; on a miss, `Document.__getattr__` (lines 98-102)
returns `_get_value` for declared fields and raises `AttributeError`
(here `Option.none`) otherwise. -/
def getattrFn (sch : Schema) (s : DocState) (key : String) : Option Value :=
  match odGet? s.attrs key with
  | Option.some v => Option.some v
  | Option.none =>
      match odGet? sch._fields key with
      | Option.some _ => Option.some (_get_value sch s key)
      | Option.none => Option.none

/-- `Document.__init__` (lines 76-82): fresh `_data`, `_iter = None`,
`_dirty = True`, then `setattr` for each keyword argument. -/
def initDoc (sch : Schema) (kwargs : List (String × Value)) : DocState :=
  kwargs.foldl (fun s p => setattrFn sch s p.1 p.2)
    { _data := [], attrs := [], _dirty := true, _iter := Option.none }

/-- The payload of a `ValidationError` raised by `Document.validate`:
`'Field %s: %s is of wrong type %s' % (name, field.__class__.__name__,
type(value))`. -/
structure VError where
  fieldName : String
  fieldClass : String
  valueType : String
deriving DecidableEq

/-- `getattr(self, name)` for a declared field name, as `validate`'s
list comprehension reads it (line 139): the plain instance attribute
when present, else `_get_value` via `__getattr__`. -/
def attrValue (sch : Schema) (s : DocState) (name : String) : Value :=
  (odGet? s.attrs name).getD (_get_value sch s name)

/-- The loop body of `Document.validate` (lines 141-147): skip an
`ObjectIdField`-typed field whose value is `None`; otherwise report
the field when its `is_valid` rejects the value. -/
def fieldCheck (sch : Schema) (s : DocState) (p : String × Field) : Option VError :=
  if p.2.isObjectId = true ∧ attrValue sch s p.1 = Value.none then Option.none
  else if p.2.is_valid (attrValue sch s p.1) then Option.none
  else Option.some ⟨p.1, p.2.className, pyType (attrValue sch s p.1)⟩

/-- `Document.validate` (lines 138-147): walk the fields in schema
order and raise at the first failing field; `Option.none` means every
field passed. -/
def validate (sch : Schema) (s : DocState) : Option VError :=
  sch._fields.findSome? (fieldCheck sch s)

/-- The wire key a field is emitted under by `_doc` (lines 196-201):
the configured primary-key name for the field named `id`, the field
name otherwise, with `_id` appended for reference fields. -/
def wireKey (sch : Schema) (name : String) (f : Field) : String :=
  if f.isReference then
    (if name = "id" then sch.primary_key_field else name) ++ "_id"
  else (if name = "id" then sch.primary_key_field else name)

/-- The loop body of `Document._doc` (lines 195-203): skip the field
when its (pre-suffix) wire key is the primary-key name and the
effective value is `None`; otherwise emit under the wire key `null`
for falsy values and the `to_rethink` encoding otherwise. -/
def docStep (sch : Schema) (s : DocState) (doc : ODict Value) (p : String × Field) : ODict Value :=
  if (if p.1 = "id" then sch.primary_key_field else p.1) = sch.primary_key_field
      ∧ _get_value sch s p.1 = Value.none then doc
  else
    odSet doc (wireKey sch p.1 p.2)
      (if truthy (_get_value sch s p.1) then p.2.to_rethink (_get_value sch s p.1)
       else Value.none)

/-- `Document._doc` (lines 192-205): fold the per-field emission over
the fields in schema order, starting from an empty mapping. -/
def _doc (sch : Schema) (s : DocState) : ODict Value :=
  sch._fields.foldl (docStep sch s) []

/-- The raw result structure a write returns from the storage layer:
`errors` (absent means the falsy default of `result.get('errors',
False)`), `first_error`, and `generated_keys`. -/
structure WriteResult where
  errors : Option Nat
  first_error : Option String
  generated_keys : Option (List Value)

/-- A storage round-trip issued by `save` / `delete`. -/
inductive Op where
  | insert (doc : ODict Value)
  | update (key : Value) (doc : ODict Value)
  | deleteOp (key : Value)
deriving DecidableEq

/-- How a call to `save` terminates: a normal return, a
`ValidationError`, an `RqlOperationError`, the `KeyError` from
`result['first_error']` when that key is missing, or the `IndexError`
from `result['generated_keys'][0]` on an empty list. -/
inductive Outcome where
  | ok (b : Bool)
  | validationError (e : VError)
  | rqlOperationError (msg : String)
  | keyError
  | indexError
deriving DecidableEq

/-- The effect of one `save` call: the instance state afterwards
(Python mutations persist even when an exception propagates), the
storage round-trips issued, and how the call terminated. -/
structure SaveResult where
  state : DocState
  ops : List Op
  outcome : Outcome
deriving DecidableEq

/-- The single storage round-trip `Document.save` issues once
validation passed (lines 153-159): `table.get(self.id).update(doc)`
when `self.id` is truthy, else `table.insert(doc)`. -/
def saveOp (sch : Schema) (s : DocState) : Op :=
  let idVal := (getattrFn sch s "id").getD Value.none
  if truthy idVal then Op.update idVal (_doc sch s) else Op.insert (_doc sch s)

/-- `Document.save` (lines 149-167): return `True` at once when not
dirty; validate; build the wire document; update when `self.id` is
truthy, else insert (`saveOp`); raise
`RqlOperationError(result['first_error'])` when the result's error
count is exactly one; otherwise clear `_dirty` and, when the result
carries `generated_keys`, store its first element into
`_data['id']`. -/
def save (sch : Schema) (s : DocState) (result : WriteResult) : SaveResult :=
  if s._dirty = false then ⟨s, [], Outcome.ok true⟩
  else
    match validate sch s with
    | Option.some e => ⟨s, [], Outcome.validationError e⟩
    | Option.none =>
        if result.errors = Option.some 1 then
          match result.first_error with
          | Option.some msg => ⟨s, [saveOp sch s], Outcome.rqlOperationError msg⟩
          | Option.none => ⟨s, [saveOp sch s], Outcome.keyError⟩
        else
          match result.generated_keys with
          | Option.some [] =>
              ⟨{ s with _dirty := false }, [saveOp sch s], Outcome.indexError⟩
          | Option.some (k :: _) =>
              ⟨{ s with _dirty := false, _data := odSet s._data "id" k },
                [saveOp sch s], Outcome.ok true⟩
          | Option.none =>
              ⟨{ s with _dirty := false }, [saveOp sch s], Outcome.ok true⟩

/-- `Document.delete` (lines 169-172): when `_get_value('id')` is
truthy, issue the remove and return the raw storage result
(`storageResult`); otherwise issue nothing and fall off the end,
returning Python `None`. -/
def delete (sch : Schema) (s : DocState) (storageResult : Value) : List Op × Option Value :=
  if truthy (_get_value sch s "id") then
    ([Op.deleteOp (_get_value sch s "id")], Option.some storageResult)
  else ([], Option.none)

/-- `Document.next` (lines 110-113): when `_iter` is falsy (the
initial `None`), install `iter(self._fields)`; then advance it.  An
exhausted iterator object stays installed (it is truthy), so every
later call raises `StopIteration` (`Option.none`) immediately. -/
def nextFn (sch : Schema) (s : DocState) : DocState × Option String :=
  let cur := match s._iter with
    | Option.none => odKeys sch._fields
    | Option.some l => l
  match cur with
  | [] => ({ s with _iter := Option.some [] }, Option.none)
  | h :: t => ({ s with _iter := Option.some t }, Option.some h)

/-- `Document.__iter__` (lines 107-108): returns `self` unchanged. -/
def iterFn (s : DocState) : DocState := s

/-- A bounded `for`-loop over the instance: begin iteration
(`iterFn`, the identity) and call `nextFn` until it signals
`StopIteration` or the fuel runs out; returns the final state and the
names yielded. -/
def enumFrom (sch : Schema) (s : DocState) : Nat → DocState × List String
  | 0 => (s, [])
  | Nat.succ n =>
      match nextFn sch (iterFn s) with
      | (s', Option.none) => (s', [])
      | (s', Option.some h) =>
          let r := enumFrom sch s' n
          (r.1, h :: r.2)

/-- Lexicographic comparison of code-point sequences: Python's string
ordering, which both `inspect.getmembers`' name sort and `sorted` rely
on.  (Structurally recursive so that concrete schemas evaluate;
extensionally this is the standard `String` order.) -/
def ltChars : List Char → List Char → Bool
  | [], [] => false
  | [], _ :: _ => true
  | _ :: _, [] => false
  | a :: as, b :: bs =>
      if a = b then ltChars as bs else decide (a.toNat < b.toNat)

/-- Python `a < b` on strings. -/
def pyStrLt (a b : String) : Bool := ltChars a.data b.data

/-- Python `a <= b` on strings. -/
def pyStrLe (a b : String) : Bool := !(pyStrLt b a)

theorem ltChars_asymm (x : List Char) : ∀ (y : List Char),
    ltChars x y = true → ltChars y x = false := by
  induction x with
  | nil =>
      intro y h
      cases y with
      | nil => simp [ltChars] at h
      | cons b bs => rfl
  | cons a as ih =>
      intro y h
      cases y with
      | nil => simp [ltChars] at h
      | cons b bs =>
          simp only [ltChars] at h ⊢
          by_cases hab : a = b
          · subst hab
            rw [if_pos rfl] at h
            rw [if_pos rfl]
            exact ih bs h
          · rw [if_neg hab] at h
            rw [if_neg (fun hh => hab hh.symm)]
            simp only [decide_eq_true_eq] at h
            simp only [decide_eq_false_iff_not]
            omega

theorem ltChars_trans (x : List Char) : ∀ (y z : List Char),
    ltChars x y = true → ltChars y z = true → ltChars x z = true := by
  induction x with
  | nil =>
      intro y z h1 h2
      cases y with
      | nil => simp [ltChars] at h1
      | cons b bs =>
          cases z with
          | nil => simp [ltChars] at h2
          | cons c cs => rfl
  | cons a as ih =>
      intro y z h1 h2
      cases y with
      | nil => simp [ltChars] at h1
      | cons b bs =>
          cases z with
          | nil => simp [ltChars] at h2
          | cons c cs =>
              simp only [ltChars] at h1 h2 ⊢
              by_cases hab : a = b
              · subst hab
                rw [if_pos rfl] at h1
                by_cases hac : a = c
                · subst hac
                  rw [if_pos rfl] at h2 ⊢
                  exact ih bs cs h1 h2
                · rw [if_neg hac] at h2 ⊢
                  exact h2
              · rw [if_neg hab] at h1
                by_cases hbc : b = c
                · subst hbc
                  rw [if_neg hab]
                  exact h1
                · rw [if_neg hbc] at h2
                  simp only [decide_eq_true_eq] at h1 h2
                  by_cases hac : a = c
                  · exfalso
                    subst hac
                    omega
                  · rw [if_neg hac]
                    simp only [decide_eq_true_eq]
                    omega

theorem ltChars_connect (x : List Char) : ∀ (y : List Char),
    ltChars x y = false → ltChars y x = false → x = y := by
  induction x with
  | nil =>
      intro y h1 _
      cases y with
      | nil => rfl
      | cons b bs => simp [ltChars] at h1
  | cons a as ih =>
      intro y h1 h2
      cases y with
      | nil => simp [ltChars] at h2
      | cons b bs =>
          simp only [ltChars] at h1 h2
          by_cases hab : a = b
          · subst hab
            rw [if_pos rfl] at h1 h2
            rw [ih bs h1 h2]
          · rw [if_neg hab] at h1
            rw [if_neg (fun hh => hab hh.symm)] at h2
            simp only [decide_eq_false_iff_not] at h1 h2
            have hval : a.toNat = b.toNat := by omega
            exact absurd (Char.ext (UInt32.ext hval)) hab

/-- The name-ascending order `inspect.getmembers` returns members
in. -/
def byName : String × Field → String × Field → Prop :=
  fun a b => pyStrLe a.1 b.1 = true

/-- The strict part of the name order, used to show the name-sorted
arrangement of a duplicate-free member list is unique. -/
def byNameLt : String × Field → String × Field → Prop :=
  fun a b => pyStrLt a.1 b.1 = true

/-- The `key=lambda i: i[1]._creation_order` order of the `sorted`
call in `BaseDocument.__new__` (lines 32-37). -/
def byOrder : String × Field → String × Field → Prop :=
  fun a b => a.2._creation_order ≤ b.2._creation_order

instance : DecidableRel byName :=
  fun a b => inferInstanceAs (Decidable (_ = true))

instance : DecidableRel byOrder :=
  fun a b => inferInstanceAs (Decidable (a.2._creation_order ≤ b.2._creation_order))

instance : IsTotal (String × Field) byName := by
  refine ⟨fun a b => ?_⟩
  unfold byName pyStrLe
  cases hab : pyStrLt a.1 b.1 with
  | false => right; simp [hab]
  | true =>
      left
      unfold pyStrLt at hab ⊢
      simp [ltChars_asymm _ _ hab]

instance : IsTrans (String × Field) byName := by
  refine ⟨fun a b c h1 h2 => ?_⟩
  unfold byName pyStrLe pyStrLt at h1 h2 ⊢
  simp only [Bool.not_eq_true'] at h1 h2 ⊢
  cases hca : ltChars c.1.data a.1.data with
  | false => rfl
  | true =>
      exfalso
      cases hab : ltChars a.1.data b.1.data with
      | true =>
          have := ltChars_trans _ _ _ hca hab
          rw [this] at h2
          cases h2
      | false =>
          have hba : a.1.data = b.1.data := ltChars_connect _ _ hab h1
          rw [hba] at hca
          rw [hca] at h2
          cases h2

instance : IsTotal (String × Field) byOrder :=
  ⟨fun a b => le_total a.2._creation_order b.2._creation_order⟩

instance : IsTrans (String × Field) byOrder := ⟨fun _ _ _ => le_trans⟩

instance : IsAntisymm (String × Field) byNameLt := by
  refine ⟨fun _a _b h1 h2 => absurd h2 ?_⟩
  unfold byNameLt pyStrLt at h1 ⊢
  simp [ltChars_asymm _ _ h1]

/-- `sorted(inspect.getmembers(new_class, ...), key=creation order)`
(lines 32-37): `inspect.getmembers` returns the `BaseField`-valued
members sorted by name, and `sorted` is a stable sort on the
`_creation_order` token; both stable sorts are modelled by insertion
sort. -/
def collectFields (members : List (String × Field)) : List (String × Field) :=
  List.insertionSort byOrder (List.insertionSort byName members)

/-- The inputs to `BaseDocument.__new__` that determine the field
mapping of a non-root class: the class body's own `_fields` binding
if any (`attrs.get('_fields', OrderedDict())` reads the body
namespace `attrs`), the `_fields` of a base class when one has it
(visible on the bases passed to the metaclass), and the
`BaseField`-valued members found on the new class. -/
structure ClassBody where
  fieldsAttr : Option (ODict Field)
  basesFields : Option (ODict Field)
  members : List (String × Field)

/-- `BaseDocument.__new__`, schema-processing part (lines 32-42):
seed the field mapping from the class body's `_fields` binding (the
bases' `_fields` is never consulted), insert the synthetic
`ObjectIdField` under `'id'`, then insert the collected members in
sorted order. -/
def buildFields (body : ClassBody) : ODict Field :=
  let fs := body.fieldsAttr.getD []
  let fs := odSet fs "id" ObjectIdField
  (collectFields body.members).foldl (fun d p => odSet d p.1 p.2) fs

/-! ### Ordered-dictionary lemmas -/

theorem odKeys_nil {α : Type} : odKeys ([] : ODict α) = [] := rfl

theorem odKeys_cons {α : Type} (p : String × α) (d : ODict α) :
    odKeys (p :: d) = p.1 :: odKeys d := rfl

theorem odKeys_append {α : Type} (d e : ODict α) :
    odKeys (d ++ e) = odKeys d ++ odKeys e := List.map_append _ _ _

theorem odGet?_odSet_self {α : Type} (d : ODict α) (k : String) (v : α) :
    odGet? (odSet d k v) k = Option.some v := by
  induction d with
  | nil => simp [odSet, odGet?]
  | cons p rest ih =>
      by_cases h : p.1 = k
      · simp [odSet, odGet?, h]
      · simp [odSet, odGet?, h, ih]

theorem odGet?_odSet_ne {α : Type} (d : ODict α) (k k' : String) (v : α)
    (h : k' ≠ k) : odGet? (odSet d k v) k' = odGet? d k' := by
  have h' : ¬(k = k') := fun hh => h hh.symm
  induction d with
  | nil => simp [odSet, odGet?, h']
  | cons p rest ih =>
      by_cases hp : p.1 = k
      · simp [odSet, odGet?, hp, h']
      · by_cases hpk : p.1 = k'
        · simp [odSet, odGet?, hp, hpk, h]
        · simp [odSet, odGet?, hp, hpk, ih]

theorem mem_odKeys_odSet {α : Type} (d : ODict α) (k k' : String) (v : α) :
    k' ∈ odKeys (odSet d k v) ↔ k' ∈ odKeys d ∨ k' = k := by
  induction d with
  | nil => simp [odSet, odKeys, eq_comm]
  | cons p rest ih =>
      by_cases hp : p.1 = k
      · simp only [odSet, if_pos hp, odKeys_cons]
        simp only [List.mem_cons]
        rw [← hp]
        tauto
      · simp only [odSet, if_neg hp, odKeys_cons]
        simp only [List.mem_cons]
        rw [ih]
        tauto

theorem odGet?_eq_none_of_not_mem {α : Type} (d : ODict α) (k : String)
    (h : k ∉ odKeys d) : odGet? d k = Option.none := by
  induction d with
  | nil => simp [odGet?]
  | cons p rest ih =>
      rw [odKeys_cons] at h
      simp only [List.mem_cons, not_or] at h
      have h1 : ¬ p.1 = k := fun hh => h.1 hh.symm
      simp [odGet?, h1, ih h.2]

theorem odSet_of_not_mem {α : Type} (d : ODict α) (k : String) (v : α)
    (h : k ∉ odKeys d) : odSet d k v = d ++ [(k, v)] := by
  induction d with
  | nil => simp [odSet]
  | cons p rest ih =>
      rw [odKeys_cons] at h
      simp only [List.mem_cons, not_or] at h
      have h1 : ¬ p.1 = k := fun hh => h.1 hh.symm
      simp [odSet, h1, ih h.2]

theorem foldl_odSet_append {α : Type} (l : List (String × α)) (d : ODict α)
    (hdisj : ∀ p ∈ l, p.1 ∉ odKeys d) (hnd : (l.map Prod.fst).Nodup) :
    l.foldl (fun d p => odSet d p.1 p.2) d = d ++ l := by
  induction l generalizing d with
  | nil => simp
  | cons p rest ih =>
      simp only [List.foldl_cons]
      rw [odSet_of_not_mem d p.1 p.2 (hdisj p (List.mem_cons_self p rest))]
      simp only [List.map_cons, List.nodup_cons] at hnd
      have hd2 : ∀ q ∈ rest, q.1 ∉ odKeys (d ++ [p]) := by
        intro q hq
        rw [odKeys_append, odKeys_cons, odKeys_nil]
        simp only [List.mem_append, List.mem_cons, List.not_mem_nil, or_false,
          not_or]
        refine ⟨hdisj q (List.mem_cons_of_mem p hq), ?_⟩
        intro hqp
        exact hnd.1 (hqp ▸ List.mem_map_of_mem Prod.fst hq)
      rw [ih (d ++ [p]) hd2 hnd.2]
      simp

/-! ### Dirty-flag helper lemmas -/

theorem setattr_dirty_true (sch : Schema) (s : DocState) (k : String) (v : Value)
    (h : s._dirty = true) : (setattrFn sch s k v)._dirty = true := by
  unfold setattrFn
  cases odGet? sch._fields k with
  | none => simpa using h
  | some f =>
      simp only []
      split
      · rfl
      · simpa using h

theorem initDoc_dirty (sch : Schema) (kwargs : List (String × Value)) :
    (initDoc sch kwargs)._dirty = true := by
  unfold initDoc
  generalize hs : ({ _data := [], attrs := [], _dirty := true, _iter := Option.none } : DocState) = s0
  have h0 : s0._dirty = true := by rw [← hs]
  clear hs
  induction kwargs generalizing s0 with
  | nil => simpa using h0
  | cons p rest ih =>
      simp only [List.foldl_cons]
      exact ih _ (setattr_dirty_true sch s0 p.1 p.2 h0)

theorem save_not_dirty (sch : Schema) (s : DocState) (r : WriteResult)
    (h : s._dirty = false) : save sch s r = ⟨s, [], Outcome.ok true⟩ := by
  unfold save
  rw [h]
  simp

theorem save_dirty_eq (sch : Schema) (s : DocState) (r : WriteResult)
    (hd : s._dirty = true) (hv : validate sch s = Option.none) :
    save sch s r =
      if r.errors = Option.some 1 then
        match r.first_error with
        | Option.some msg => ⟨s, [saveOp sch s], Outcome.rqlOperationError msg⟩
        | Option.none => ⟨s, [saveOp sch s], Outcome.keyError⟩
      else
        match r.generated_keys with
        | Option.some [] =>
            ⟨{ s with _dirty := false }, [saveOp sch s], Outcome.indexError⟩
        | Option.some (k :: _) =>
            ⟨{ s with _dirty := false, _data := odSet s._data "id" k },
              [saveOp sch s], Outcome.ok true⟩
        | Option.none =>
            ⟨{ s with _dirty := false }, [saveOp sch s], Outcome.ok true⟩ := by
  unfold save
  rw [hd, hv]
  simp

theorem save_validation_failed (sch : Schema) (s : DocState) (r : WriteResult)
    (hd : s._dirty = true) (e : VError) (hv : validate sch s = Option.some e) :
    save sch s r = ⟨s, [], Outcome.validationError e⟩ := by
  unfold save
  rw [hd, hv]
  simp

theorem save_ok_dirty_false (sch : Schema) (s : DocState) (r : WriteResult)
    (b : Bool) (h : (save sch s r).outcome = Outcome.ok b) :
    (save sch s r).state._dirty = false := by
  cases hd : s._dirty with
  | false => rw [save_not_dirty sch s r hd]; exact hd
  | true =>
      cases hv : validate sch s with
      | some e => rw [save_validation_failed sch s r hd e hv] at h; simp at h
      | none =>
          rw [save_dirty_eq sch s r hd hv] at h ⊢
          by_cases he : r.errors = Option.some 1
          · rw [if_pos he] at h
            cases hfe : r.first_error <;> rw [hfe] at h <;> simp at h
          · rw [if_neg he] at h ⊢
            cases hk : r.generated_keys with
            | none => simp
            | some ks =>
                cases ks with
                | nil => rw [hk] at h
                | cons k t => simp

theorem save_ops_dirty (sch : Schema) (s : DocState) (r : WriteResult)
    (hd : s._dirty = true) (hv : validate sch s = Option.none) :
    (save sch s r).ops = [saveOp sch s] := by
  rw [save_dirty_eq sch s r hd hv]
  by_cases he : r.errors = Option.some 1
  · rw [if_pos he]
    cases r.first_error <;> simp
  · rw [if_neg he]
    cases hk : r.generated_keys with
    | none => simp
    | some ks => cases ks <;> simp

/-- C2: Dirty-flag lifecycle: constructing an instance sets the dirty
flag to `true`; assigning a declared field a value equal to its
current effective value leaves the flag unchanged; assigning a
different value sets the flag; a `save()` that returns normally
leaves the flag `false`. -/
theorem C2_dirty_lifecycle (sch : Schema) (kwargs : List (String × Value))
    (s : DocState) (k : String) (f : Field) (v : Value) (r : WriteResult)
    (hf : odGet? sch._fields k = Option.some f) (hv : localizeUTC v = v) :
    (initDoc sch kwargs)._dirty = true ∧
    (_get_value sch s k = v → (setattrFn sch s k v)._dirty = s._dirty) ∧
    (_get_value sch s k ≠ v → (setattrFn sch s k v)._dirty = true) ∧
    (∀ b, (save sch s r).outcome = Outcome.ok b →
      (save sch s r).state._dirty = false) := by
  refine ⟨initDoc_dirty sch kwargs, ?_, ?_, fun b => save_ok_dirty_false sch s r b⟩
  · intro heq
    unfold setattrFn
    simp only [hf, hv, heq]
    simp
  · intro hne
    unfold setattrFn
    simp only [hf, hv]
    simp [hne]

/-- C5: `save()` on an instance whose dirty flag is false returns success
immediately, performing no validation and no storage round-trip (the result
is `ok true` whatever `validate` would say); hence calling `save()` twice
without intervening mutation performs exactly one storage round-trip: the
first (dirty) call issues one operation and the second call issues none. -/
theorem C5_save_idempotent (sch : Schema) (s : DocState) (r r' : WriteResult) :
    (s._dirty = false → save sch s r = ⟨s, [], Outcome.ok true⟩) ∧
    (s._dirty = true → (save sch s r).outcome = Outcome.ok true →
      (save sch s r).ops.length = 1 ∧
      save sch (save sch s r).state r' =
        ⟨(save sch s r).state, [], Outcome.ok true⟩) := by
  constructor
  · intro h
    exact save_not_dirty sch s r h
  · intro hd hok
    have hdf : (save sch s r).state._dirty = false :=
      save_ok_dirty_false sch s r true hok
    refine ⟨?_, save_not_dirty sch _ r' hdf⟩
    cases hv : validate sch s with
    | some e =>
        rw [save_validation_failed sch s r hd e hv] at hok
        simp at hok
    | none => rw [save_ops_dirty sch s r hd hv]; rfl

/-- C4: on a dirty, validation-passing instance, `save()` raises an
operation error carrying the storage layer's first reported error exactly
when the result's error count is one; on that path the instance state
(dirty flag and storage mapping) is unchanged; on every other result the
dirty flag is cleared and, when the result carries generated keys, the
first one is stored under `id`. -/
theorem C4_save_error_iff (sch : Schema) (s : DocState) (r : WriteResult)
    (hd : s._dirty = true) (hv : validate sch s = Option.none)
    (hfe : r.errors = Option.some 1 → r.first_error.isSome = true) :
    ((∃ msg, (save sch s r).outcome = Outcome.rqlOperationError msg ∧
        r.first_error = Option.some msg) ↔ r.errors = Option.some 1) ∧
    (r.errors = Option.some 1 → (save sch s r).state = s) ∧
    (r.errors ≠ Option.some 1 →
      (save sch s r).state._dirty = false ∧
      ∀ k ks, r.generated_keys = Option.some (k :: ks) →
        odGet? (save sch s r).state._data "id" = Option.some k) := by
  rw [save_dirty_eq sch s r hd hv]
  by_cases he : r.errors = Option.some 1
  · rw [if_pos he]
    cases hfe' : r.first_error with
    | none =>
        exfalso
        have h1 := hfe he
        rw [hfe'] at h1
        simp at h1
    | some msg =>
        refine ⟨⟨fun _ => he, fun _ => ⟨msg, rfl, rfl⟩⟩, fun _ => rfl,
          fun hne => absurd he hne⟩
  · rw [if_neg he]
    cases hk : r.generated_keys with
    | none =>
        refine ⟨⟨?_, fun h1 => absurd h1 he⟩, fun h1 => absurd h1 he,
          fun _ => ⟨rfl, ?_⟩⟩
        · rintro ⟨msg, hmsg, -⟩
          simp at hmsg
        · intro k ks hgk
          simp at hgk
    | some ks =>
        cases ks with
        | nil =>
            refine ⟨⟨?_, fun h1 => absurd h1 he⟩, fun h1 => absurd h1 he,
              fun _ => ⟨rfl, ?_⟩⟩
            · rintro ⟨msg, hmsg, -⟩
              simp at hmsg
            · intro k ks hgk
              simp at hgk
        | cons k0 t =>
            refine ⟨⟨?_, fun h1 => absurd h1 he⟩, fun h1 => absurd h1 he,
              fun _ => ⟨rfl, ?_⟩⟩
            · rintro ⟨msg, hmsg, -⟩
              simp at hmsg
            · intro k ks hgk
              injection hgk with hgk'
              injection hgk' with hk1 hk2
              subst hk1
              exact odGet?_odSet_self s._data "id" _

/-- C10: persistence treats any falsy identifier as absent: a dirty,
validation-passing instance whose effective `id` value is falsy (and whose
instance `__dict__` holds no shadowing `id` entry) is saved through the
insert path, with no update-by-identifier; and `delete()` issues no storage
call and returns `None`. -/
theorem C10_falsy_id_insert (sch : Schema) (s : DocState) (r : WriteResult)
    (rd : Value) (hd : s._dirty = true) (hv : validate sch s = Option.none)
    (hattr : odGet? s.attrs "id" = Option.none)
    (hdecl : (odGet? sch._fields "id").isSome = true)
    (heff : truthy (_get_value sch s "id") = false) :
    (save sch s r).ops = [Op.insert (_doc sch s)] ∧
    delete sch s rd = ([], Option.none) := by
  have hga : getattrFn sch s "id" = Option.some (_get_value sch s "id") := by
    unfold getattrFn
    rw [hattr]
    cases hf : odGet? sch._fields "id" with
    | none => rw [hf] at hdecl; simp at hdecl
    | some f => simp
  have hop : saveOp sch s = Op.insert (_doc sch s) := by
    unfold saveOp
    rw [hga]
    simp [heff]
  constructor
  · rw [save_ops_dirty sch s r hd hv, hop]
  · unfold delete
    rw [heff]
    simp

/-! ### Concrete fixtures used by the witnesses -/

/-- A representative scalar string field descriptor: the field-type
library is an external capability, and this is the shape a
`StringField()` instance exposes to the document layer. -/
def StringField : Field :=
  { className := "StringField"
    isObjectId := false
    isReference := false
    _creation_order := 1
    _default := Value.str ""
    is_valid := fun v => match v with | Value.str _ => true | _ => false
    to_rethink := fun v => v }

/-- The schema the metaclass builds for
`class Widget(Document): name = StringField()`. -/
def wSchema : Schema :=
  { _fields := buildFields ⟨Option.none, Option.none, [("name", StringField)]⟩
    primary_key_field := "id" }

/-- `Widget()`: a freshly constructed instance. -/
def wDoc : DocState := initDoc wSchema []

/-- A storage result for a successful insert: no errors, one generated
key. -/
def wInsertRes : WriteResult :=
  ⟨Option.none, Option.none, Option.some [Value.str "abc123"]⟩

/-- A storage result reporting exactly one error. -/
def wErrRes : WriteResult :=
  ⟨Option.some 1, Option.some "boom", Option.none⟩

/-- A dirty instance whose stored `id` is the empty string: falsy but
not `None`. -/
def wEmptyIdDoc : DocState :=
  { _data := [("id", Value.str "")], attrs := [], _dirty := true,
    _iter := Option.none }

theorem C2_dirty_lifecycle_witness :
    odGet? wSchema._fields "name" = Option.some StringField ∧
    localizeUTC (Value.str "x") = Value.str "x" ∧
    ((initDoc wSchema [])._dirty = true ∧
     (_get_value wSchema wDoc "name" = Value.str "x" →
       (setattrFn wSchema wDoc "name" (Value.str "x"))._dirty = wDoc._dirty) ∧
     (_get_value wSchema wDoc "name" ≠ Value.str "x" →
       (setattrFn wSchema wDoc "name" (Value.str "x"))._dirty = true) ∧
     (∀ b, (save wSchema wDoc wInsertRes).outcome = Outcome.ok b →
       (save wSchema wDoc wInsertRes).state._dirty = false)) :=
  ⟨rfl, rfl,
    C2_dirty_lifecycle wSchema [] wDoc "name" StringField (Value.str "x")
      wInsertRes rfl rfl⟩

theorem C4_save_error_iff_witness :
    wDoc._dirty = true ∧ validate wSchema wDoc = Option.none ∧
    (save wSchema wDoc wErrRes).state = wDoc ∧
    ((∃ msg, (save wSchema wDoc wErrRes).outcome =
        Outcome.rqlOperationError msg ∧
        wErrRes.first_error = Option.some msg) ↔
      wErrRes.errors = Option.some 1) :=
  ⟨rfl, rfl,
    (C4_save_error_iff wSchema wDoc wErrRes rfl rfl (fun _ => rfl)).2.1 rfl,
    (C4_save_error_iff wSchema wDoc wErrRes rfl rfl (fun _ => rfl)).1⟩

theorem C5_save_idempotent_witness :
    wDoc._dirty = true ∧
    (save wSchema wDoc wInsertRes).ops.length = 1 ∧
    save wSchema (save wSchema wDoc wInsertRes).state wInsertRes =
      ⟨(save wSchema wDoc wInsertRes).state, [], Outcome.ok true⟩ :=
  ⟨rfl,
    ((C5_save_idempotent wSchema wDoc wInsertRes wInsertRes).2 rfl rfl).1,
    ((C5_save_idempotent wSchema wDoc wInsertRes wInsertRes).2 rfl rfl).2⟩

theorem C10_falsy_id_insert_witness :
    wEmptyIdDoc._dirty = true ∧
    truthy (_get_value wSchema wEmptyIdDoc "id") = false ∧
    _get_value wSchema wEmptyIdDoc "id" ≠ Value.none ∧
    (save wSchema wEmptyIdDoc wInsertRes).ops =
      [Op.insert (_doc wSchema wEmptyIdDoc)] ∧
    delete wSchema wEmptyIdDoc (Value.str "row") = ([], Option.none) :=
  ⟨rfl, rfl, by decide,
    (C10_falsy_id_insert wSchema wEmptyIdDoc wInsertRes (Value.str "row")
      rfl rfl rfl rfl rfl).1,
    (C10_falsy_id_insert wSchema wEmptyIdDoc wInsertRes (Value.str "row")
      rfl rfl rfl rfl rfl).2⟩

/-! ### Wire-document lemmas -/

theorem docStep_eq_skip (sch : Schema) (s : DocState) (d : ODict Value)
    (p : String × Field)
    (h : (if p.1 = "id" then sch.primary_key_field else p.1) =
        sch.primary_key_field ∧ _get_value sch s p.1 = Value.none) :
    docStep sch s d p = d := by
  unfold docStep
  rw [if_pos h]

theorem docStep_eq_set (sch : Schema) (s : DocState) (d : ODict Value)
    (p : String × Field)
    (h : ¬((if p.1 = "id" then sch.primary_key_field else p.1) =
        sch.primary_key_field ∧ _get_value sch s p.1 = Value.none)) :
    docStep sch s d p =
      odSet d (wireKey sch p.1 p.2)
        (if truthy (_get_value sch s p.1)
          then p.2.to_rethink (_get_value sch s p.1) else Value.none) := by
  unfold docStep
  rw [if_neg h]

theorem doc_foldl_preserve (sch : Schema) (s : DocState)
    (l : List (String × Field)) (d : ODict Value) (k : String)
    (hk : k ∉ l.map (fun p => wireKey sch p.1 p.2)) :
    odGet? (l.foldl (docStep sch s) d) k = odGet? d k := by
  induction l generalizing d with
  | nil => rfl
  | cons p rest ih =>
      simp only [List.map_cons, List.mem_cons, not_or] at hk
      simp only [List.foldl_cons]
      rw [ih _ hk.2]
      by_cases hc : (if p.1 = "id" then sch.primary_key_field else p.1) =
          sch.primary_key_field ∧ _get_value sch s p.1 = Value.none
      · rw [docStep_eq_skip sch s d p hc]
      · rw [docStep_eq_set sch s d p hc]
        exact odGet?_odSet_ne _ _ _ _ hk.1

theorem doc_foldl_lookup (sch : Schema) (s : DocState)
    (l : List (String × Field)) (d : ODict Value) (name : String) (f : Field)
    (hmem : (name, f) ∈ l)
    (hnd : (l.map (fun p => wireKey sch p.1 p.2)).Nodup)
    (hd : wireKey sch name f ∉ odKeys d) :
    odGet? (l.foldl (docStep sch s) d) (wireKey sch name f) =
      if (if name = "id" then sch.primary_key_field else name) =
            sch.primary_key_field ∧ _get_value sch s name = Value.none
      then Option.none
      else Option.some (if truthy (_get_value sch s name)
        then f.to_rethink (_get_value sch s name) else Value.none) := by
  induction l generalizing d with
  | nil => cases hmem
  | cons p rest ih =>
      obtain ⟨pn, pf⟩ := p
      simp only [List.map_cons, List.nodup_cons] at hnd
      rcases List.mem_cons.mp hmem with heq | hmemr
      · rw [Prod.mk.injEq] at heq
        obtain ⟨rfl, rfl⟩ := heq
        simp only [List.foldl_cons]
        rw [doc_foldl_preserve sch s rest _ _ hnd.1]
        by_cases hc : (if name = "id" then sch.primary_key_field else name) =
            sch.primary_key_field ∧ _get_value sch s name = Value.none
        · rw [docStep_eq_skip sch s d (name, f) hc, if_pos hc]
          exact odGet?_eq_none_of_not_mem d _ hd
        · rw [docStep_eq_set sch s d (name, f) hc, if_neg hc]
          exact odGet?_odSet_self d _ _
      · simp only [List.foldl_cons]
        refine ih _ hmemr hnd.2 ?_
        intro hmem2
        by_cases hc : (if pn = "id" then sch.primary_key_field else pn) =
            sch.primary_key_field ∧ _get_value sch s pn = Value.none
        · rw [docStep_eq_skip sch s d (pn, pf) hc] at hmem2
          exact hd hmem2
        · rw [docStep_eq_set sch s d (pn, pf) hc] at hmem2
          rw [mem_odKeys_odSet] at hmem2
          rcases hmem2 with h1 | h1
          · exact hd h1
          · exact hnd.1 (h1 ▸ List.mem_map_of_mem _ hmemr)

/-- C3: wire-document construction: a declared field whose wire key is the
configured primary-key name is omitted entirely when its effective value is
absent (`None`); every other declared field is emitted under its wire key,
with value `null` when its effective value is falsy and its `to_rethink`
encoding otherwise (assuming, as for any well-formed schema, that distinct
fields occupy distinct wire keys). -/
theorem C3_doc_emission (sch : Schema) (s : DocState) (name : String)
    (f : Field) (hmem : (name, f) ∈ sch._fields)
    (hnd : (sch._fields.map (fun p => wireKey sch p.1 p.2)).Nodup) :
    ((if name = "id" then sch.primary_key_field else name) =
          sch.primary_key_field ∧ _get_value sch s name = Value.none →
      odGet? (_doc sch s) (wireKey sch name f) = Option.none) ∧
    (¬((if name = "id" then sch.primary_key_field else name) =
          sch.primary_key_field ∧ _get_value sch s name = Value.none) →
      odGet? (_doc sch s) (wireKey sch name f) =
        Option.some (if truthy (_get_value sch s name)
          then f.to_rethink (_get_value sch s name) else Value.none)) := by
  have h := doc_foldl_lookup sch s sch._fields [] name f hmem hnd
    (by simp [odKeys])
  unfold _doc
  constructor
  · intro hc
    rw [h, if_pos hc]
  · intro hc
    rw [h, if_neg hc]

theorem C3_doc_emission_witness :
    (("name", StringField) ∈ wSchema._fields ∧
      (wSchema._fields.map (fun p => wireKey wSchema p.1 p.2)).Nodup) ∧
    odGet? (_doc wSchema wDoc) (wireKey wSchema "name" StringField) =
      Option.some Value.none ∧
    odGet? (_doc wSchema wDoc) (wireKey wSchema "id" ObjectIdField) =
      Option.none :=
  ⟨⟨List.Mem.tail _ (List.Mem.head _), by decide⟩,
    (C3_doc_emission wSchema wDoc "name" StringField
      (List.Mem.tail _ (List.Mem.head _)) (by decide)).2 (by decide),
    (C3_doc_emission wSchema wDoc "id" ObjectIdField
      (List.Mem.head _) (by decide)).1 (by decide)⟩

/-- A representative reference field descriptor named in the scenario:
`isinstance(·, ReferenceField)` holds, so its storage and wire keys get
the `_id` suffix. -/
def wAuthorField : Field :=
  { className := "ReferenceField"
    isObjectId := false
    isReference := true
    _creation_order := 2
    _default := Value.none
    is_valid := fun v => match v with | Value.str _ => true | _ => false
    to_rethink := fun v => v }

/-- The schema of a class with a scalar `name` field and a reference
`author` field. -/
def wRefSchema : Schema :=
  { _fields := buildFields ⟨Option.none, Option.none,
      [("name", StringField), ("author", wAuthorField)]⟩
    primary_key_field := "id" }

/-- C9: for a reference-type declared field, assignment stores the value
under the `_id`-suffixed storage key, reads come back from that same
suffixed key, and the wire document emits the suffixed key and never the
bare field name. -/
theorem C9_reference_suffix (sch : Schema) (s : DocState) (name : String)
    (f : Field) (v : Value)
    (hf : odGet? sch._fields name = Option.some f)
    (href : f.isReference = true) (hloc : localizeUTC v = v)
    (hmem : (name, f) ∈ sch._fields)
    (hnd : (sch._fields.map (fun p => wireKey sch p.1 p.2)).Nodup)
    (hid : name ≠ "id") (hpk : name ≠ sch.primary_key_field)
    (hbare : name ∉ sch._fields.map (fun p => wireKey sch p.1 p.2)) :
    odGet? (setattrFn sch s name v)._data (name ++ "_id") = Option.some v ∧
    _get_value sch s name =
      (odGet? s._data (name ++ "_id")).getD f._default ∧
    odGet? (_doc sch s) (name ++ "_id") =
      Option.some (if truthy (_get_value sch s name)
        then f.to_rethink (_get_value sch s name) else Value.none) ∧
    odGet? (_doc sch s) name = Option.none := by
  have hwk : wireKey sch name f = name ++ "_id" := by
    unfold wireKey
    rw [if_neg hid, if_pos href]
  refine ⟨?_, ?_, ?_, ?_⟩
  · unfold setattrFn
    rw [hf]
    simp only [href, if_true, hloc]
    exact odGet?_odSet_self _ _ _
  · unfold _get_value
    rw [hf]
    simp [href]
  · have h := doc_foldl_lookup sch s sch._fields [] name f hmem hnd
      (by simp [odKeys])
    rw [hwk] at h
    unfold _doc
    rw [h, if_neg ?hc]
    case hc =>
      rintro ⟨h1, -⟩
      rw [if_neg hid] at h1
      exact hpk h1
  · have h := doc_foldl_preserve sch s sch._fields [] name hbare
    unfold _doc
    rw [h]
    rfl

theorem C9_reference_suffix_witness :
    odGet? wRefSchema._fields "author" = Option.some wAuthorField ∧
    odGet? (setattrFn wRefSchema (initDoc wRefSchema [])
        "author" (Value.str "someid"))._data "author_id" =
      Option.some (Value.str "someid") ∧
    odGet? (_doc wRefSchema
        (setattrFn wRefSchema (initDoc wRefSchema [])
          "author" (Value.str "someid"))) "author_id" =
      Option.some (Value.str "someid") ∧
    odGet? (_doc wRefSchema
        (setattrFn wRefSchema (initDoc wRefSchema [])
          "author" (Value.str "someid"))) "author" = Option.none :=
  ⟨rfl,
    (C9_reference_suffix wRefSchema (initDoc wRefSchema [])
      "author" wAuthorField (Value.str "someid") rfl rfl rfl
      (List.Mem.tail _ (List.Mem.tail _ (List.Mem.head _))) (by decide)
      (by decide) (by decide) (by decide)).1,
    (C9_reference_suffix wRefSchema
      (setattrFn wRefSchema (initDoc wRefSchema []) "author"
        (Value.str "someid"))
      "author" wAuthorField (Value.str "someid") rfl rfl rfl
      (List.Mem.tail _ (List.Mem.tail _ (List.Mem.head _))) (by decide)
      (by decide) (by decide) (by decide)).2.2.1,
    (C9_reference_suffix wRefSchema
      (setattrFn wRefSchema (initDoc wRefSchema []) "author"
        (Value.str "someid"))
      "author" wAuthorField (Value.str "someid") rfl rfl rfl
      (List.Mem.tail _ (List.Mem.tail _ (List.Mem.head _))) (by decide)
      (by decide) (by decide) (by decide)).2.2.2⟩

/-! ### Validation lemmas -/

theorem findSome?_eq_none_iff' {α β : Type} (f : α → Option β) (l : List α) :
    l.findSome? f = Option.none ↔ ∀ a ∈ l, f a = Option.none := by
  induction l with
  | nil => simp [List.findSome?]
  | cons a l ih =>
      cases hfa : f a with
      | some b => simp [List.findSome?, hfa]
      | none => simp [List.findSome?, hfa, ih]

theorem findSome?_append_first {α β : Type} (f : α → Option β)
    (pre post : List α) (a : α) (b : β)
    (hpre : ∀ x ∈ pre, f x = Option.none) (ha : f a = Option.some b) :
    (pre ++ a :: post).findSome? f = Option.some b := by
  induction pre with
  | nil => simp [List.findSome?, ha]
  | cons x xs ih =>
      have hx := hpre x (List.mem_cons_self x xs)
      simp only [List.cons_append, List.findSome?, hx]
      exact ih fun y hy => hpre y (List.mem_cons_of_mem x hy)

theorem fieldCheck_eq_none_iff (sch : Schema) (s : DocState)
    (p : String × Field) :
    fieldCheck sch s p = Option.none ↔
      (p.2.isObjectId = true ∧ attrValue sch s p.1 = Value.none) ∨
        p.2.is_valid (attrValue sch s p.1) = true := by
  unfold fieldCheck
  by_cases h1 : p.2.isObjectId = true ∧ attrValue sch s p.1 = Value.none
  · simp [h1]
  · rw [if_neg h1]
    by_cases h2 : p.2.is_valid (attrValue sch s p.1) = true
    · simp [h2]
    · simp [h2, h1]

/-- C7 (amended): `validate()` invokes each declared field's validity
predicate on that field's effective value, except that it skips every
field of primitive-identifier kind (any `ObjectIdField` instance, not
only the identifier field itself) whose effective value is absent; it
returns without error iff every field is skipped or valid, and otherwise
reports the first failing field in schema order, naming the field, its
declared kind, and the actual value's kind. -/
theorem C7_validate_first_failure (sch : Schema) (s : DocState) :
    (validate sch s = Option.none ↔
      ∀ p ∈ sch._fields,
        (p.2.isObjectId = true ∧ attrValue sch s p.1 = Value.none) ∨
          p.2.is_valid (attrValue sch s p.1) = true) ∧
    (∀ pre name f post,
      sch._fields = pre ++ (name, f) :: post →
      (∀ p ∈ pre,
        (p.2.isObjectId = true ∧ attrValue sch s p.1 = Value.none) ∨
          p.2.is_valid (attrValue sch s p.1) = true) →
      ¬(f.isObjectId = true ∧ attrValue sch s name = Value.none) →
      f.is_valid (attrValue sch s name) = false →
      validate sch s =
        Option.some ⟨name, f.className, pyType (attrValue sch s name)⟩) := by
  constructor
  · unfold validate
    rw [findSome?_eq_none_iff']
    constructor
    · intro h p hp
      exact (fieldCheck_eq_none_iff sch s p).mp (h p hp)
    · intro h p hp
      exact (fieldCheck_eq_none_iff sch s p).mpr (h p hp)
  · intro pre name f post hsplit hpre hskip hfail
    unfold validate
    rw [hsplit]
    refine findSome?_append_first _ pre post (name, f) _ ?_ ?_
    · intro x hx
      exact (fieldCheck_eq_none_iff sch s x).mpr (hpre x hx)
    · unfold fieldCheck
      rw [if_neg hskip, if_neg (by simp [hfail])]

theorem C7_validate_first_failure_witness :
    validate wSchema (setattrFn wSchema wDoc "name" (Value.int 5)) =
      Option.some ⟨"name", "StringField", "int"⟩ :=
  (C7_validate_first_failure wSchema
      (setattrFn wSchema wDoc "name" (Value.int 5))).2
    [("id", ObjectIdField)] "name" StringField [] rfl
    (fun p hp => by
      rw [List.mem_singleton] at hp
      subst hp
      exact Or.inl ⟨rfl, rfl⟩)
    (by decide) rfl

/-- A field descriptor of primitive-identifier kind whose validity
predicate rejects every value: the shape of a user-defined subclass of
`ObjectIdField` with a stricter `is_valid` (the `isinstance` check in
`validate` sees any such instance as an `ObjectIdField`). -/
def wStrictIdField : Field :=
  { className := "StrictIdField"
    isObjectId := true
    isReference := false
    _creation_order := 3
    _default := Value.none
    is_valid := fun _ => false
    to_rethink := fun v => v }

/-- The schema of a class declaring `token = StrictIdField()`. -/
def wTokSchema : Schema :=
  { _fields := buildFields ⟨Option.none, Option.none,
      [("token", wStrictIdField)]⟩
    primary_key_field := "id" }

/-- C7 (counterexample): `token` is a declared field distinct from the
identifier field whose validity predicate rejects its effective value,
yet `validate` passes — the skip applies to every `ObjectIdField`-typed
field with value `None`, not only the identifier field, so the claim
that only the identifier field is exempted is false on this input. -/
theorem C7_counterexample :
    ("token", wStrictIdField) ∈ wTokSchema._fields ∧
    "token" ≠ "id" ∧
    wStrictIdField.is_valid
      (attrValue wTokSchema (initDoc wTokSchema []) "token") = false ∧
    validate wTokSchema (initDoc wTokSchema []) = Option.none :=
  ⟨List.Mem.tail _ (List.Mem.head _), by decide, rfl, rfl⟩

/-! ### Iteration lemmas -/

theorem enumFrom_some (sch : Schema) (l : List String) :
    ∀ (s : DocState) (n : Nat), s._iter = Option.some l → l.length < n →
    enumFrom sch s n = ({ s with _iter := Option.some [] }, l) := by
  induction l with
  | nil =>
      intro s n hs hn
      cases n with
      | zero => omega
      | succ m =>
          unfold enumFrom nextFn iterFn
          rw [hs]
  | cons h t ih =>
      intro s n hs hn
      cases n with
      | zero => omega
      | succ m =>
          unfold enumFrom nextFn iterFn
          rw [hs]
          simp only []
          rw [ih { s with _iter := Option.some t } m rfl (by simp at hn; omega)]

theorem enumFrom_exhausted (sch : Schema) (s : DocState) (n : Nat)
    (hs : s._iter = Option.some []) :
    (enumFrom sch s n).2 = [] := by
  cases n with
  | zero => rfl
  | succ m =>
      unfold enumFrom nextFn iterFn
      rw [hs]

theorem enumFrom_fresh (sch : Schema) (s : DocState) (n : Nat)
    (hs : s._iter = Option.none) (hn : (odKeys sch._fields).length < n) :
    enumFrom sch s n =
      ({ s with _iter := Option.some [] }, odKeys sch._fields) := by
  cases n with
  | zero => omega
  | succ m =>
      cases hks : odKeys sch._fields with
      | nil =>
          unfold enumFrom nextFn iterFn
          rw [hs, hks]
      | cons h t =>
          unfold enumFrom nextFn iterFn
          rw [hs, hks]
          simp only []
          rw [enumFrom_some sch t { s with _iter := Option.some t } m rfl
            (by rw [hks] at hn; simp at hn; omega)]

/-- C8 (amended): instance iteration enumerates the declared field names
in schema order on the first full enumeration, but the cursor installed
by `next` is never reset: `__iter__` returns `self` unchanged, an
exhausted iterator object stays truthy, and so every enumeration after
the first yields nothing — iteration is not restartable. -/
theorem C8_iteration_not_restartable (sch : Schema) (s : DocState) (n : Nat)
    (hs : s._iter = Option.none) (hn : (odKeys sch._fields).length < n) :
    iterFn s = s ∧
    (enumFrom sch s n).2 = odKeys sch._fields ∧
    (enumFrom sch s n).1._iter = Option.some [] ∧
    ∀ m, (enumFrom sch (enumFrom sch s n).1 m).2 = [] := by
  rw [enumFrom_fresh sch s n hs hn]
  exact ⟨rfl, rfl, rfl, fun m => enumFrom_exhausted sch _ m rfl⟩

theorem C8_iteration_not_restartable_witness :
    wDoc._iter = Option.none ∧
    (enumFrom wSchema wDoc 3).2 = ["id", "name"] ∧
    (enumFrom wSchema (enumFrom wSchema wDoc 3).1 3).2 = [] :=
  ⟨rfl, (C8_iteration_not_restartable wSchema wDoc 3 rfl (by decide)).2.1,
    (C8_iteration_not_restartable wSchema wDoc 3 rfl (by decide)).2.2.2 3⟩

/-- C8 (counterexample): on a two-field schema, the first full
enumeration yields both declared field names, but a second full
enumeration begun after the first is exhausted yields nothing — not all
declared field names, as the claim's restartability would require. -/
theorem C8_counterexample :
    (enumFrom wSchema wDoc 3).2 = ["id", "name"] ∧
    (enumFrom wSchema (enumFrom wSchema wDoc 3).1 3).2 = [] ∧
    (enumFrom wSchema (enumFrom wSchema wDoc 3).1 3).2 ≠ ["id", "name"] :=
  ⟨rfl, rfl, by decide⟩

/-! ### Schema-builder lemmas -/

theorem collectFields_perm (m : List (String × Field)) :
    (collectFields m).Perm m :=
  (List.perm_insertionSort byOrder _).trans (List.perm_insertionSort byName m)

theorem collectFields_sorted (m : List (String × Field)) :
    (collectFields m).Pairwise byOrder :=
  List.sorted_insertionSort byOrder _

theorem sorted_byNameLt_of_nodup (l : List (String × Field))
    (hs : l.Pairwise byName) (hnd : (l.map Prod.fst).Nodup) :
    l.Pairwise byNameLt := by
  have hne : l.Pairwise (fun a b : String × Field => a.1 ≠ b.1) :=
    (List.pairwise_map).mp hnd
  refine (hs.and hne).imp ?_
  intro a b h
  obtain ⟨hle, hne'⟩ := h
  unfold byName pyStrLe pyStrLt at hle
  unfold byNameLt pyStrLt
  simp only [Bool.not_eq_true'] at hle
  cases hab : ltChars a.1.data b.1.data with
  | true => rfl
  | false =>
      exfalso
      exact hne' (String.ext (ltChars_connect _ _ hab hle))

theorem insertionSort_byName_canonical (m1 m2 : List (String × Field))
    (hperm : m1.Perm m2) (hnd : (m1.map Prod.fst).Nodup) :
    List.insertionSort byName m1 = List.insertionSort byName m2 := by
  have h1 := List.perm_insertionSort byName m1
  have h2 := List.perm_insertionSort byName m2
  have hp : (List.insertionSort byName m1).Perm (List.insertionSort byName m2) :=
    h1.trans (hperm.trans h2.symm)
  have hnd2 : (m2.map Prod.fst).Nodup := ((hperm.map Prod.fst).nodup_iff).mp hnd
  have hnd1' : ((List.insertionSort byName m1).map Prod.fst).Nodup :=
    ((h1.map Prod.fst).nodup_iff).mpr hnd
  have hnd2' : ((List.insertionSort byName m2).map Prod.fst).Nodup :=
    ((h2.map Prod.fst).nodup_iff).mpr hnd2
  exact List.eq_of_perm_of_sorted hp
    (sorted_byNameLt_of_nodup _ (List.sorted_insertionSort byName m1) hnd1')
    (sorted_byNameLt_of_nodup _ (List.sorted_insertionSort byName m2) hnd2')

theorem collectFields_canonical (m1 m2 : List (String × Field))
    (hperm : m1.Perm m2) (hnd : (m1.map Prod.fst).Nodup) :
    collectFields m1 = collectFields m2 := by
  unfold collectFields
  rw [insertionSort_byName_canonical m1 m2 hperm hnd]

theorem buildFields_none_eq (b : Option (ODict Field))
    (m : List (String × Field))
    (hid : "id" ∉ m.map Prod.fst) (hnd : (m.map Prod.fst).Nodup) :
    buildFields ⟨Option.none, b, m⟩ =
      ("id", ObjectIdField) :: collectFields m := by
  have heq : buildFields ⟨Option.none, b, m⟩ =
      (collectFields m).foldl (fun d p => odSet d p.1 p.2)
        [("id", ObjectIdField)] := rfl
  rw [heq]
  rw [foldl_odSet_append (collectFields m) [("id", ObjectIdField)] ?hdisj ?hnd2]
  · rfl
  case hdisj =>
      intro p hp
      have hpm : p ∈ m := (collectFields_perm m).subset hp
      rw [odKeys_cons, odKeys_nil]
      simp only [List.mem_cons, List.not_mem_nil, or_false]
      intro hpk
      exact hid (hpk ▸ List.mem_map_of_mem Prod.fst hpm)
  case hnd2 =>
      exact (((collectFields_perm m).map Prod.fst).nodup_iff).mpr hnd

/-- C1: on every non-root class whose body declares no `_fields` binding
and no member named `id`, the built field mapping is the synthetic
`ObjectIdField` under `id` first, followed by the class-body members,
independent of the (unordered) order in which `inspect.getmembers`
collects them, arranged in ascending `_creation_order` token order. -/
theorem C1_schema_id_first_ordered (b : Option (ODict Field))
    (m1 m2 : List (String × Field))
    (hperm : m1.Perm m2) (hnd : (m1.map Prod.fst).Nodup)
    (hid : "id" ∉ m1.map Prod.fst) :
    buildFields ⟨Option.none, b, m1⟩ = buildFields ⟨Option.none, b, m2⟩ ∧
    buildFields ⟨Option.none, b, m1⟩ =
      ("id", ObjectIdField) :: collectFields m1 ∧
    (collectFields m1).Perm m1 ∧
    ((collectFields m1).map (fun p => p.2._creation_order)).Sorted (· ≤ ·) := by
  have hnd2 : (m2.map Prod.fst).Nodup := ((hperm.map Prod.fst).nodup_iff).mp hnd
  have hid2 : "id" ∉ m2.map Prod.fst :=
    fun hh => hid (((hperm.map Prod.fst).mem_iff).mpr hh)
  refine ⟨?_, buildFields_none_eq b m1 hid hnd, collectFields_perm m1, ?_⟩
  · rw [buildFields_none_eq b m1 hid hnd, buildFields_none_eq b m2 hid2 hnd2,
      collectFields_canonical m1 m2 hperm hnd]
  · exact (List.pairwise_map).mpr (collectFields_sorted m1)

/-- A scalar field with creation-order token 1, as a class body would
declare it. -/
def wfA : Field :=
  { className := "IntField"
    isObjectId := false
    isReference := false
    _creation_order := 1
    _default := Value.int 0
    is_valid := fun v => match v with | Value.int _ => true | _ => false
    to_rethink := fun v => v }

/-- A scalar field with creation-order token 2. -/
def wfB : Field :=
  { className := "IntField"
    isObjectId := false
    isReference := false
    _creation_order := 2
    _default := Value.int 0
    is_valid := fun v => match v with | Value.int _ => true | _ => false
    to_rethink := fun v => v }

theorem C1_schema_id_first_ordered_witness :
    ([("bb", wfB), ("aa", wfA)] : List (String × Field)).Perm
      [("aa", wfA), ("bb", wfB)] ∧
    (([("bb", wfB), ("aa", wfA)] : List (String × Field)).map Prod.fst).Nodup ∧
    "id" ∉ ([("bb", wfB), ("aa", wfA)] : List (String × Field)).map Prod.fst ∧
    buildFields ⟨Option.none, Option.none, [("bb", wfB), ("aa", wfA)]⟩ =
      buildFields ⟨Option.none, Option.none, [("aa", wfA), ("bb", wfB)]⟩ ∧
    buildFields ⟨Option.none, Option.none, [("bb", wfB), ("aa", wfA)]⟩ =
      ("id", ObjectIdField) :: collectFields [("bb", wfB), ("aa", wfA)] ∧
    collectFields [("bb", wfB), ("aa", wfA)] = [("aa", wfA), ("bb", wfB)] :=
  ⟨List.Perm.swap ("aa", wfA) ("bb", wfB) [], by decide, by decide,
    (C1_schema_id_first_ordered Option.none [("bb", wfB), ("aa", wfA)]
      [("aa", wfA), ("bb", wfB)] (List.Perm.swap ("aa", wfA) ("bb", wfB) [])
      (by decide) (by decide)).1,
    (C1_schema_id_first_ordered Option.none [("bb", wfB), ("aa", wfA)]
      [("aa", wfA), ("bb", wfB)] (List.Perm.swap ("aa", wfA) ("bb", wfB) [])
      (by decide) (by decide)).2.1,
    rfl⟩

theorem mem_odKeys_foldl_odSet {α : Type} (l : List (String × α))
    (d : ODict α) (k : String) (hk : k ∈ odKeys d) :
    k ∈ odKeys (l.foldl (fun d p => odSet d p.1 p.2) d) := by
  induction l generalizing d with
  | nil => exact hk
  | cons p rest ih =>
      simp only [List.foldl_cons]
      exact ih _ ((mem_odKeys_odSet d p.1 k p.2).mpr (Or.inl hk))

/-- C6 (counterexample): a subclass whose base carries an already-built
`_fields` containing `x`, whose own body binds no `_fields`, and which
declares no members (the base's raw descriptors were deleted when the
base itself was built, so `inspect.getmembers` finds none) ends up with
a field mapping that lacks `x`: the base's mapping did not seed the
build, contradicting the claim. -/
theorem C6_counterexample :
    odGet? (buildFields ⟨Option.none,
        Option.some [("id", ObjectIdField), ("x", StringField)], []⟩) "x" =
      Option.none ∧
    odKeys (buildFields ⟨Option.none,
        Option.some [("id", ObjectIdField), ("x", StringField)], []⟩) =
      ["id"] :=
  ⟨rfl, rfl⟩

/-- C6 (amended): the builder seeds the field mapping from the class
body's own `_fields` binding when one exists (every key of that binding
appears in the result) and is entirely independent of any `_fields`
carried by the bases; with no body binding the mapping starts empty. -/
theorem C6_attrs_seeding (fa : Option (ODict Field))
    (b b' : Option (ODict Field)) (ms : List (String × Field)) :
    buildFields ⟨fa, b, ms⟩ = buildFields ⟨fa, b', ms⟩ ∧
    (∀ k, k ∈ odKeys (fa.getD []) → k ∈ odKeys (buildFields ⟨fa, b, ms⟩)) := by
  refine ⟨rfl, ?_⟩
  intro k hk
  unfold buildFields
  apply mem_odKeys_foldl_odSet
  exact (mem_odKeys_odSet _ "id" k ObjectIdField).mpr (Or.inl hk)

theorem C6_attrs_seeding_witness :
    "x" ∈ odKeys ((Option.some [("x", StringField)] :
      Option (ODict Field)).getD []) ∧
    "x" ∈ odKeys (buildFields
      ⟨Option.some [("x", StringField)], Option.none, []⟩) :=
  ⟨by decide,
    (C6_attrs_seeding (Option.some [("x", StringField)]) Option.none
      Option.none []).2 "x" (by decide)⟩

end RethinkEngine
